import Mathlib

/-!
Verification development for the yara-x scanner core.

This file shallowly embeds three source files of the repository:

* `src/lib/src/modules/olecf/parser.rs` — the OLECF (compound file) parser,
  in namespace `Olecf`;
* `src/src/scanner/mod.rs` — the scan engine and its result iterators,
  in namespace `Scan`;
* `src/capi/src/lib.rs` — the C-ABI shell (error codes and thread-local
  last-error state), in namespace `Capi`.

Byte buffers are `List Nat` (each element a byte value), machine integers are
`Nat` with explicit casts where overflow matters, Rust `Result` is `Except`,
raw pointers that may be null are `Option`, and a Rust panic (an `unwrap` of
an error, or a `todo` branch) is a distinguished outcome of the embedded
operation.
-/

namespace Olecf

/-- The 8-byte OLECF signature `D0 CF 11 E0 A1 B1 1A E1`. -/
def OLECF_SIGNATURE : List Nat := [0xD0, 0xCF, 0x11, 0xE0, 0xA1, 0xB1, 0x1A, 0xE1]

/-- Sector size: `1 << SECTOR_SHIFT` with `SECTOR_SHIFT = 9`. -/
def SECTOR_SIZE : Nat := 512

/-- Mini-sector size: `1 << MINI_SECTOR_SHIFT` with `MINI_SECTOR_SHIFT = 6`. -/
def MINI_SECTOR_SIZE : Nat := 64

/-- Size of a directory entry in bytes. -/
def DIRECTORY_ENTRY_SIZE : Nat := 128

def STORAGE_TYPE : Nat := 1

def STREAM_TYPE : Nat := 2

def ROOT_STORAGE_TYPE : Nat := 5

/-- End-of-chain sentinel sector value. -/
def ENDOFCHAIN : Nat := 0xFFFFFFFE

/-- Largest regular sector value plus one; sectors `≥ 0xFFFFFFFA` are reserved. -/
def MAX_REGULAR_SECTOR : Nat := 0xFFFFFFFA

/-- Errors returned by the parser (`&'static str` messages in the source,
one constructor per distinct message). -/
inductive OlecfError where
  | failedToParse
  | sectorOutOfBounds
  | fatIndexOutOfRange
  | bufferTooSmallU16
  | bufferTooSmallU32
  | incompleteDirEntry
  | invalidNameLength
  | streamNotFound
  | noStreams
  | incompleteStream
  | noMiniStream
  | miniStreamOffsetOutOfRange
  | miniStreamBeyondData
  | incompleteMiniStream
  deriving DecidableEq

/-- A directory entry (`DirectoryEntry` in the source). The Rust `String`
name is modelled as its list of Unicode scalar values. -/
structure DirectoryEntry where
  name : List Nat
  size : Nat
  start_sector : Nat
  stream_type : Nat
  deriving DecidableEq

/-- The parser state (`OLECFParser` in the source). The `sector_size` and
`mini_sector_size` fields are always `512` and `64` in the source constructor,
so they are the constants `SECTOR_SIZE` and `MINI_SECTOR_SIZE` here. The
`HashMap<String, DirectoryEntry>` is an association list with replace-on-insert
semantics. -/
structure OLECFParser where
  data : List Nat
  fat_sectors : List Nat
  directory_sectors : List Nat
  mini_fat_sectors : List Nat
  dir_entries : List (List Nat × DirectoryEntry)
  mini_stream_start : Nat
  mini_stream_size : Nat
  deriving DecidableEq

/-- Source `parse_u16_at`: little-endian `u16` at `offset`, error if fewer than two
bytes remain. -/
def parse_u16_at (data : List Nat) (offset : Nat) : Except OlecfError Nat :=
  if offset + 2 > data.length then .error .bufferTooSmallU16
  else .ok (data.getD offset 0 + 256 * data.getD (offset + 1) 0)

/-- Source `parse_u32_at`: little-endian `u32` at `offset`, error if fewer than four
bytes remain. -/
def parse_u32_at (data : List Nat) (offset : Nat) : Except OlecfError Nat :=
  if offset + 4 > data.length then .error .bufferTooSmallU32
  else .ok (data.getD offset 0 + 256 * data.getD (offset + 1) 0
      + 65536 * data.getD (offset + 2) 0 + 16777216 * data.getD (offset + 3) 0)

/-- Source `sector_to_offset`: the first sector begins at byte offset 512. -/
def sector_to_offset (sector : Nat) : Nat :=
  512 + sector * SECTOR_SIZE

/-- Source `read_sector`: the `SECTOR_SIZE` bytes of a sector, or an error when the
sector extends past the end of the data. -/
def OLECFParser.read_sector (p : OLECFParser) (sector : Nat) :
    Except OlecfError (List Nat) :=
  if sector_to_offset sector + SECTOR_SIZE > p.data.length then
    .error .sectorOutOfBounds
  else
    .ok ((p.data.drop (sector_to_offset sector)).take SECTOR_SIZE)

/-- Source `get_fat_entry`: the FAT entry for `sector` lives in FAT sector
`sector / 128` at intra-sector byte offset `(sector % 128) * 4`. -/
def OLECFParser.get_fat_entry (p : OLECFParser) (sector : Nat) :
    Except OlecfError Nat :=
  let entry_index := sector
  let entries_per_sector := SECTOR_SIZE / 4
  let fat_sector_index := entry_index / entries_per_sector
  if fat_sector_index ≥ p.fat_sectors.length then .error .fatIndexOutOfRange
  else
    match p.read_sector (p.fat_sectors.getD fat_sector_index 0) with
    | .error e => .error e
    | .ok fat => parse_u32_at fat ((entry_index % entries_per_sector) * 4)

/-- The loop body of `follow_chain`. The source loop terminates because the
cycle guard pushes each sector value at most once and every sector that the
loop continues from had a successful FAT lookup, which forces its value below
`(SECTOR_SIZE / 4) * fat_sectors.length`; hence that many iterations plus two
always suffice, and `followChainAux_spec` proves the iteration budget is
never exhausted. -/
def followChainAux (p : OLECFParser) : Nat → Nat → List Nat → List Nat
  | 0, _, chain => chain
  | fuel + 1, current, chain =>
    -- Ensure that the current sector is a valid one.
    if current > MAX_REGULAR_SECTOR then chain
    -- Prevent cycles by keeping track of visited sectors.
    else if current ∈ chain then chain
    else
      let chain' := chain ++ [current]
      -- Now current is the next entry in the chain.
      match p.get_fat_entry current with
      | .error _ => chain'
      | .ok n => if n = ENDOFCHAIN then chain' else followChainAux p fuel n chain'

/-- Source `follow_chain`. -/
def OLECFParser.follow_chain (p : OLECFParser) (start_sector : Nat) : List Nat :=
  followChainAux p (SECTOR_SIZE / 4 * p.fat_sectors.length + 2) start_sector []

end Olecf

deriving instance DecidableEq for Except

namespace Olecf

/-- Consecutive elements of the produced chain are linked by the FAT. -/
def ChainLinks (p : OLECFParser) (l : List Nat) : Prop :=
  ∀ i, i + 1 < l.length → p.get_fat_entry (l.getD i 0) = .ok (l.getD (i + 1) 0)

/-- The loop stopped after `last` for one of the reasons of the source `match`:
the FAT lookup failed, the FAT entry is the end-of-chain sentinel, or the FAT
entry is a sector that fails the validity guard or the cycle guard on the next
iteration. -/
def StopsAfter (p : OLECFParser) (l : List Nat) (last : Nat) : Prop :=
  (∃ e, p.get_fat_entry last = .error e)
  ∨ p.get_fat_entry last = .ok ENDOFCHAIN
  ∨ (∃ n, p.get_fat_entry last = .ok n ∧ (n > MAX_REGULAR_SECTOR ∨ n ∈ l))

/-- A FAT crafted so that the entry for sector 2 points back to sector 2:
the single FAT sector is sector 0 (bytes 512..1023), whose entry number 2
(little-endian u32 at bytes 520..523) holds the value 2. -/
def cycData : List Nat := List.replicate 520 0 ++ [2, 0, 0, 0] ++ List.replicate 500 0

/-- Parser state over `cycData` with the FAT located in sector 0. -/
def cycParser : OLECFParser :=
  { data := cycData, fat_sectors := [0], directory_sectors := [],
    mini_fat_sectors := [], dir_entries := [], mini_stream_start := 0,
    mini_stream_size := 0 }

/-- Data whose single FAT sector is sector 0 and whose entry for sector 1
(bytes 516..519) is the end-of-chain sentinel `0xFFFFFFFE`. -/
def eocData : List Nat :=
  List.replicate 516 0 ++ [0xFE, 0xFF, 0xFF, 0xFF] ++ List.replicate 504 0

/-- Parser state over `eocData` with the FAT located in sector 0. -/
def eocParser : OLECFParser :=
  { data := eocData, fat_sectors := [0], directory_sectors := [],
    mini_fat_sectors := [], dir_entries := [], mini_stream_start := 0,
    mini_stream_size := 0 }

/-- Modelled from the Rust standard library: one step budget per consumed
byte for `utf8LossyAux`; every iteration consumes at least one byte, so a
budget equal to the list length never runs out. -/
def utf8LossyAux : Nat → List Nat → List Nat
  | 0, _ => []
  | _ + 1, [] => []
  | fuel + 1, b :: rest =>
    if b < 0x80 then b :: utf8LossyAux fuel rest
    else if 0xC2 ≤ b ∧ b ≤ 0xDF then
      match rest with
      | [] => [0xFFFD]
      | b2 :: r2 =>
        if 0x80 ≤ b2 ∧ b2 ≤ 0xBF then
          ((b - 0xC0) * 0x40 + (b2 - 0x80)) :: utf8LossyAux fuel r2
        else 0xFFFD :: utf8LossyAux fuel rest
    else if 0xE0 ≤ b ∧ b ≤ 0xEF then
      match rest with
      | [] => [0xFFFD]
      | b2 :: r2 =>
        if (b = 0xE0 ∧ 0xA0 ≤ b2 ∧ b2 ≤ 0xBF)
            ∨ (b = 0xED ∧ 0x80 ≤ b2 ∧ b2 ≤ 0x9F)
            ∨ (b ≠ 0xE0 ∧ b ≠ 0xED ∧ 0x80 ≤ b2 ∧ b2 ≤ 0xBF) then
          match r2 with
          | [] => [0xFFFD]
          | b3 :: r3 =>
            if 0x80 ≤ b3 ∧ b3 ≤ 0xBF then
              ((b - 0xE0) * 0x1000 + (b2 - 0x80) * 0x40 + (b3 - 0x80))
                :: utf8LossyAux fuel r3
            else 0xFFFD :: utf8LossyAux fuel r2
        else 0xFFFD :: utf8LossyAux fuel rest
    else if 0xF0 ≤ b ∧ b ≤ 0xF4 then
      match rest with
      | [] => [0xFFFD]
      | b2 :: r2 =>
        if (b = 0xF0 ∧ 0x90 ≤ b2 ∧ b2 ≤ 0xBF)
            ∨ (b = 0xF4 ∧ 0x80 ≤ b2 ∧ b2 ≤ 0x8F)
            ∨ (b ≠ 0xF0 ∧ b ≠ 0xF4 ∧ 0x80 ≤ b2 ∧ b2 ≤ 0xBF) then
          match r2 with
          | [] => [0xFFFD]
          | b3 :: r3 =>
            if 0x80 ≤ b3 ∧ b3 ≤ 0xBF then
              match r3 with
              | [] => [0xFFFD]
              | b4 :: r4 =>
                if 0x80 ≤ b4 ∧ b4 ≤ 0xBF then
                  ((b - 0xF0) * 0x40000 + (b2 - 0x80) * 0x1000
                      + (b3 - 0x80) * 0x40 + (b4 - 0x80)) :: utf8LossyAux fuel r4
                else 0xFFFD :: utf8LossyAux fuel r3
            else 0xFFFD :: utf8LossyAux fuel r2
        else 0xFFFD :: utf8LossyAux fuel rest
    else 0xFFFD :: utf8LossyAux fuel rest

/-- Modelled from the Rust standard library: lossy UTF-8 decoding as performed
by `String::from_utf8_lossy`, returning the list of Unicode scalar values.
Ill-formed sequences are replaced by `U+FFFD`. -/
def utf8LossyDecode (l : List Nat) : List Nat := utf8LossyAux l.length l

/-- Modelled from the spec: group bytes into little-endian 16-bit code units
(an odd trailing byte yields a replacement character). -/
def utf16Units : List Nat → List Nat
  | [] => []
  | [_] => [0xFFFD]
  | b0 :: b1 :: rest => (b0 + 256 * b1) :: utf16Units rest

/-- Modelled from the spec: remove the trailing run of null code units. -/
def dropTrailingNulls (units : List Nat) : List Nat :=
  (units.reverse.dropWhile (fun u => u == 0)).reverse

/-- Modelled from the spec: decode UTF-16 code units to Unicode scalar values,
pairing surrogates and replacing lone surrogates by `U+FFFD`; one step budget
per consumed unit. -/
def utf16ScalarsAux : Nat → List Nat → List Nat
  | 0, _ => []
  | _ + 1, [] => []
  | fuel + 1, u :: rest =>
    if 0xD800 ≤ u ∧ u ≤ 0xDBFF then
      match rest with
      | [] => [0xFFFD]
      | u2 :: r2 =>
        if 0xDC00 ≤ u2 ∧ u2 ≤ 0xDFFF then
          (0x10000 + (u - 0xD800) * 0x400 + (u2 - 0xDC00)) :: utf16ScalarsAux fuel r2
        else 0xFFFD :: utf16ScalarsAux fuel rest
    else if 0xDC00 ≤ u ∧ u ≤ 0xDFFF then 0xFFFD :: utf16ScalarsAux fuel rest
    else u :: utf16ScalarsAux fuel rest

/-- Modelled from the spec: decode UTF-16 code units to scalar values. -/
def utf16ToScalars (units : List Nat) : List Nat :=
  utf16ScalarsAux units.length units

/-- Modelled from the spec: the name the spec prescribes for raw directory
entry name bytes — interpret them as little-endian UTF-16, filter out the
trailing null units, and decode (lossily) to Unicode scalar values. -/
def specUtf16Name (bytes : List Nat) : List Nat :=
  utf16ToScalars (dropTrailingNulls (utf16Units bytes))

/-- Error propagation of the source's `?` operator. -/
def ebind {α β : Type} (x : Except OlecfError α)
    (f : α → Except OlecfError β) : Except OlecfError β :=
  match x with
  | .error e => .error e
  | .ok a => f a

/-- Source `read_directory_entry`: decode the 128-byte directory entry at `offset`.
The name is the lossy UTF-8 decoding of the first `name_len` bytes with all
zero bytes filtered out. -/
def read_directory_entry (data : List Nat) (offset : Nat) :
    Except OlecfError DirectoryEntry :=
  if offset + 128 > data.length then .error .incompleteDirEntry
  else
    ebind (parse_u16_at data (offset + 64)) fun name_len =>
    if ¬ (2 ≤ name_len ∧ name_len ≤ 64) then .error .invalidNameLength
    else
      let name_bytes := (data.drop offset).take name_len
      let filtered := name_bytes.filter (fun b => b != 0)
      let name := utf8LossyDecode filtered
      let stream_type := data.getD (offset + 66) 0
      ebind (parse_u32_at data (offset + 116)) fun start_sector =>
      ebind (parse_u32_at data (offset + 120)) fun size_32 =>
      .ok { name := name, size := size_32,
            start_sector := start_sector, stream_type := stream_type }

/-- Insert with `HashMap::insert` semantics: replace the value when the key is
present, append otherwise (last write wins). -/
def insertEntry : List (List Nat × DirectoryEntry) → List Nat → DirectoryEntry →
    List (List Nat × DirectoryEntry)
  | [], k, v => [(k, v)]
  | (k0, v0) :: rest, k, v =>
    if k0 = k then (k, v) :: rest else (k0, v0) :: insertEntry rest k v

/-- Source `HashMap::get` on the association list. -/
def lookupEntry : List (List Nat × DirectoryEntry) → List Nat →
    Option DirectoryEntry
  | [], _ => none
  | (k0, v0) :: rest, k => if k0 = k then some v0 else lookupEntry rest k

/-- The effect of one accepted directory entry on the parser: a root-storage
entry records the mini-stream source chain, and storage / stream /
root-storage entries are inserted into the name map. -/
def apply_dir_entry (p : OLECFParser) (e : DirectoryEntry) : OLECFParser :=
  let p1 := if e.stream_type = ROOT_STORAGE_TYPE
    then { p with mini_stream_start := e.start_sector, mini_stream_size := e.size }
    else p
  if e.stream_type = STORAGE_TYPE ∨ e.stream_type = STREAM_TYPE
      ∨ e.stream_type = ROOT_STORAGE_TYPE
  then { p1 with dir_entries := insertEntry p1.dir_entries e.name e }
  else p1

/-- The values taken by `entry_offset` in the directory loop: the while
condition is `entry_offset + DIRECTORY_ENTRY_SIZE ≤ sector_size`. -/
def entry_offsets : List Nat := [0, 128, 256, 384]

/-- The inner loop of `parse_directory` over one directory sector; an entry
that would extend past the end of the data breaks out of the sector. -/
def process_dir_sector : OLECFParser → Nat → List Nat → OLECFParser
  | p, _, [] => p
  | p, sector, off :: rest =>
    let abs_offset := sector_to_offset sector + off
    if abs_offset + 128 > p.data.length then p
    else
      match read_directory_entry p.data abs_offset with
      | .error _ => process_dir_sector p sector rest
      | .ok e => process_dir_sector (apply_dir_entry p e) sector rest

/-- Source `parse_directory`: error when there are no directory sectors, otherwise
scan every 128-byte entry of every directory sector. -/
def parse_directory (p : OLECFParser) : Except Unit OLECFParser :=
  if p.directory_sectors = [] then .error ()
  else .ok (p.directory_sectors.foldl
    (fun q sector => process_dir_sector q sector entry_offsets) p)

/-- Result-threading for the nom-style sequential parser. -/
def pbind {α β : Type} (x : Except Unit α) (f : α → Except Unit β) :
    Except Unit β :=
  match x with
  | .error e => .error e
  | .ok a => f a

/-- nom `take(n)`: the first `n` bytes and the rest, or an error. -/
def takeN (n : Nat) (l : List Nat) : Except Unit (List Nat × List Nat) :=
  if l.length < n then .error () else .ok (l.take n, l.drop n)

/-- nom `le_u16`. -/
def leU16 (l : List Nat) : Except Unit (Nat × List Nat) :=
  if l.length < 2 then .error ()
  else .ok (l.getD 0 0 + 256 * l.getD 1 0, l.drop 2)

/-- nom `le_u32`. -/
def leU32 (l : List Nat) : Except Unit (Nat × List Nat) :=
  if l.length < 4 then .error ()
  else .ok (l.getD 0 0 + 256 * l.getD 1 0 + 65536 * l.getD 2 0
      + 16777216 * l.getD 3 0, l.drop 4)

/-- nom `fold_many_m_n(0, 109, le_u32, …)`: read up to `n` little-endian u32
values, stopping when fewer than four bytes remain. -/
def parseDifat : Nat → List Nat → List Nat × List Nat
  | 0, l => ([], l)
  | n + 1, l =>
    if l.length < 4 then ([], l)
    else
      let v := l.getD 0 0 + 256 * l.getD 1 0 + 65536 * l.getD 2 0
          + 16777216 * l.getD 3 0
      let rec_result := parseDifat n (l.drop 4)
      (v :: rec_result.1, rec_result.2)

/-- The header fields of interest kept by `parse_header` (the remaining
fields are read and discarded by the source as well). -/
structure HeaderFields where
  num_fat_sectors : Nat
  first_dir_sector : Nat
  first_mini_fat : Nat
  mini_fat_count : Nat
  difat : List Nat
  deriving DecidableEq

/-- The fixed-layout part of `parse_header` ([MS-CFB] 2.2): signature, CLSID,
versions, byte order mark, shifts, reserved bytes, nine u32 fields, then up
to 109 DIFAT entries. Fails when the signature or the byte-order mark do not
verify, or when the input is too short for a fixed field. -/
def parse_header_fields (input : List Nat) : Except Unit HeaderFields :=
  pbind (takeN 8 input) fun s0 =>
  if s0.1 ≠ OLECF_SIGNATURE then .error () else
  pbind (takeN 16 s0.2) fun s1 =>
  pbind (leU16 s1.2) fun s2 =>
  pbind (leU16 s2.2) fun s3 =>
  pbind (leU16 s3.2) fun s4 =>
  if s4.1 ≠ 0xFFFE then .error () else
  pbind (leU16 s4.2) fun s5 =>
  pbind (leU16 s5.2) fun s6 =>
  pbind (takeN 6 s6.2) fun s7 =>
  pbind (leU32 s7.2) fun s8 =>
  pbind (leU32 s8.2) fun s9 =>
  pbind (leU32 s9.2) fun s10 =>
  pbind (leU32 s10.2) fun s11 =>
  pbind (leU32 s11.2) fun s12 =>
  pbind (leU32 s12.2) fun s13 =>
  pbind (leU32 s13.2) fun s14 =>
  pbind (leU32 s14.2) fun s15 =>
  pbind (leU32 s15.2) fun s16 =>
  .ok { num_fat_sectors := s9.1, first_dir_sector := s10.1,
        first_mini_fat := s13.1, mini_fat_count := s14.1,
        difat := (parseDifat 109 s16.2).1 }

/-- Source `parse_header`: read the header fields, record the DIFAT entries below
`MAX_REGULAR_SECTOR` as FAT sectors, follow the directory chain (error when
the first directory sector is not a regular sector), follow the mini-FAT
chain when present, and reject a file that declares FAT sectors but provided
none. -/
def parse_header (data : List Nat) : Except Unit OLECFParser :=
  pbind (parse_header_fields data) fun h =>
  let p0 : OLECFParser :=
    { data := data,
      fat_sectors := h.difat.filter (fun s => decide (s < MAX_REGULAR_SECTOR)),
      directory_sectors := [], mini_fat_sectors := [], dir_entries := [],
      mini_stream_start := 0, mini_stream_size := 0 }
  if h.first_dir_sector < MAX_REGULAR_SECTOR then
    let p1 := { p0 with directory_sectors := p0.follow_chain h.first_dir_sector }
    let p2 := if h.mini_fat_count > 0 ∧ h.first_mini_fat < MAX_REGULAR_SECTOR
      then { p1 with mini_fat_sectors := p1.follow_chain h.first_mini_fat }
      else p1
    if p2.fat_sectors = [] ∧ h.num_fat_sectors > 0 then .error () else .ok p2
  else .error ()

/-- Source `OLECFParser::new`: parse the header then the directory; any failure is
reported as the single constructor error message. -/
def OLECFParser.new (data : List Nat) : Except OlecfError OLECFParser :=
  match pbind (parse_header data) parse_directory with
  | .error _ => .error .failedToParse
  | .ok p => .ok p

/-- The loop of `get_regular_stream_data`; one step budget per iteration.
Every iteration appends `min SECTOR_SIZE (size - acc.length)` bytes, at least
one while the loop continues, so a budget of `size + 1` never runs out. -/
def regular_loop (p : OLECFParser) (size : Nat) : Nat → Nat → List Nat →
    Except OlecfError (List Nat)
  | 0, _, acc => .ok acc
  | fuel + 1, current_sector, acc =>
    if current_sector < MAX_REGULAR_SECTOR ∧ acc.length < size then
      match p.read_sector current_sector with
      | .error e => .error e
      | .ok sector_data =>
        let bytes_to_read := min SECTOR_SIZE (size - acc.length)
        let acc' := acc ++ sector_data.take bytes_to_read
        if acc'.length < size then
          match p.get_fat_entry current_sector with
          | .error e => .error e
          | .ok next =>
            if next = ENDOFCHAIN ∨ next ≥ MAX_REGULAR_SECTOR then .ok acc'
            else regular_loop p size fuel next acc'
        else .ok acc'
    else .ok acc

/-- Source `get_regular_stream_data`: follow the FAT chain collecting 512-byte
sectors, then require the collected length to equal `size` exactly. -/
def OLECFParser.get_regular_stream_data (p : OLECFParser)
    (start_sector size : Nat) : Except OlecfError (List Nat) :=
  ebind (regular_loop p size (size + 1) start_sector []) fun data =>
  if data.length ≠ size then .error .incompleteStream else .ok data

/-- Source `get_root_mini_stream_data`: the mini stream is the regular stream of the
root storage chain. -/
def OLECFParser.get_root_mini_stream_data (p : OLECFParser) :
    Except OlecfError (List Nat) :=
  p.get_regular_stream_data p.mini_stream_start p.mini_stream_size

/-- Source `get_minifat_entry`: like the FAT lookup but on the mini-FAT sectors, and
out-of-range indices yield the end-of-chain sentinel instead of an error. -/
def OLECFParser.get_minifat_entry (p : OLECFParser) (mini_sector : Nat) :
    Except OlecfError Nat :=
  if p.mini_fat_sectors = [] then .ok ENDOFCHAIN
  else
    let entry_index := mini_sector
    let entries_per_sector := SECTOR_SIZE / 4
    let fat_sector_index := entry_index / entries_per_sector
    if fat_sector_index ≥ p.mini_fat_sectors.length then .ok ENDOFCHAIN
    else
      match p.read_sector (p.mini_fat_sectors.getD fat_sector_index 0) with
      | .error e => .error e
      | .ok fat => parse_u32_at fat ((entry_index % entries_per_sector) * 4)

/-- The loop of `get_mini_stream_data` over the materialized mini stream;
one step budget per iteration, each appending at least one byte. -/
def mini_loop (p : OLECFParser) (mini_stream_data : List Nat) (size : Nat) :
    Nat → Nat → List Nat → Except OlecfError (List Nat)
  | 0, _, acc => .ok acc
  | fuel + 1, current, acc =>
    if current < MAX_REGULAR_SECTOR ∧ acc.length < size then
      let mini_offset := current * MINI_SECTOR_SIZE
      if mini_offset ≥ mini_stream_data.length then
        .error .miniStreamOffsetOutOfRange
      else
        let bytes_to_read := min MINI_SECTOR_SIZE (size - acc.length)
        if mini_offset + bytes_to_read > mini_stream_data.length then
          .error .miniStreamBeyondData
        else
          let acc' := acc ++ (mini_stream_data.drop mini_offset).take bytes_to_read
          if acc'.length < size then
            match p.get_minifat_entry current with
            | .error e => .error e
            | .ok next =>
              if next = ENDOFCHAIN ∨ next ≥ MAX_REGULAR_SECTOR then .ok acc'
              else mini_loop p mini_stream_data size fuel next acc'
          else .ok acc'
    else .ok acc

/-- Source `get_mini_stream_data`: materialize the root storage chain as one buffer,
read 64-byte mini-sectors from it following the mini-FAT, then require the
collected length to equal `size` exactly. -/
def OLECFParser.get_mini_stream_data (p : OLECFParser)
    (start_mini_sector size : Nat) : Except OlecfError (List Nat) :=
  if p.mini_stream_size = 0 then .error .noMiniStream
  else
    ebind p.get_root_mini_stream_data fun mini_stream_data =>
    ebind (mini_loop p mini_stream_data size (size + 1) start_mini_sector []) fun data =>
    if data.length ≠ size then .error .incompleteMiniStream else .ok data

/-- Source `get_stream_data`: look the stream up by name; entries smaller than 4096
bytes that are not the root storage are read from the mini stream, the others
through the main FAT. -/
def OLECFParser.get_stream_data (p : OLECFParser) (stream_name : List Nat) :
    Except OlecfError (List Nat) :=
  match lookupEntry p.dir_entries stream_name with
  | none => .error .streamNotFound
  | some entry =>
    if entry.size < 4096 ∧ entry.stream_type ≠ ROOT_STORAGE_TYPE then
      p.get_mini_stream_data entry.start_sector entry.size
    else
      p.get_regular_stream_data entry.start_sector entry.size

/-- Whether an `Except` value is a success. -/
def exceptIsOk {ε α : Type} : Except ε α → Bool
  | .ok _ => true
  | .error _ => false

/-- The little-endian u16 at header offset 28 (the byte-order mark), when the
buffer is long enough to contain it. -/
def headerBom (data : List Nat) : Option Nat :=
  if 30 ≤ data.length then some (data.getD 28 0 + 256 * data.getD 29 0)
  else none

/-- The little-endian u32 at header offset 48 (the first directory sector),
when the buffer is long enough to contain it. -/
def headerFirstDirSector (data : List Nat) : Option Nat :=
  if 52 ≤ data.length then
    some (data.getD 48 0 + 256 * data.getD 49 0 + 65536 * data.getD 50 0
      + 16777216 * data.getD 51 0)
  else none

/-- The directory chain the constructor would follow, when the header parses. -/
def newDirectorySectors (data : List Nat) : Option (List Nat) :=
  match parse_header data with
  | .ok p => some p.directory_sectors
  | .error _ => none

/-- The root-storage directory entry used in the C5 witness: size 0, read
through the regular path. -/
def c5Entry : DirectoryEntry :=
  { name := [0x52], size := 0, start_sector := ENDOFCHAIN, stream_type := 5 }

/-- A parser state holding only the root-storage entry of the C5 witness. -/
def c5Parser : OLECFParser :=
  { data := [], fat_sectors := [], directory_sectors := [],
    mini_fat_sectors := [], dir_entries := [([0x52], c5Entry)],
    mini_stream_start := 0, mini_stream_size := 0 }

/-- C6 counterexample data: a 128-byte directory entry whose name bytes are
the single UTF-16 unit `0x00E9` (a non-ASCII unit) with `name_len = 2` and
stream type 2. -/
def c6Data : List Nat :=
  [0xE9] ++ List.replicate 63 0 ++ [2, 0] ++ [2] ++ List.replicate 61 0

/-- The entry the parser produces for `c6Data`: the zero byte of the UTF-16
unit is filtered out and the lone `0xE9` byte decodes lossily to `U+FFFD`. -/
def c6Entry : DirectoryEntry :=
  { name := [0xFFFD], size := 0, start_sector := 0, stream_type := 2 }

/-- C6 witness data: a 128-byte directory entry whose name is the ASCII
string `A` followed by a null UTF-16 unit, `name_len = 4`, stream type 2. -/
def c6wData : List Nat :=
  [0x41, 0] ++ List.replicate 62 0 ++ [4, 0] ++ [2] ++ List.replicate 61 0

/-- The entry the parser produces for `c6wData`. -/
def c6wEntry : DirectoryEntry :=
  { name := [0x41], size := 0, start_sector := 0, stream_type := 2 }

end Olecf

namespace Scan

/-- A compiled rule (`CompiledRule`): identifier and namespace, each modelled
as a list of Unicode scalar values. -/
structure CompiledRule where
  identifier : List Nat
  rule_namespace : List Nat
  deriving DecidableEq

/-- The compiled rules artifact: the ordered rule list (a rule's `RuleId` is
its index) and the imported module names. -/
structure CompiledRules where
  rules : List CompiledRule
  imported_modules : List (List Nat)
  deriving DecidableEq

/-- The protobuf message returned by a module's main function. Its contents
are never inspected by the scan engine beyond being stored in the root
structure, so it is an opaque tag here. -/
structure ModuleOutput where
  tag : Nat
  deriving DecidableEq

/-- The per-scan mutable state (`ScanContext`). The raw `scanned_data`
pointer is an `Option`: `none` models the null pointer. -/
structure ScanContext where
  rules_matching_bitmap : List Bool
  rules_matching : List Nat
  scanned_data : Option (List Nat)
  scanned_data_len : Nat
  compiled_rules : CompiledRules
  root_struct : List (List Nat × ModuleOutput)
  string_pool : List (List Nat)
  deriving DecidableEq

/-- A built-in module descriptor: its optional main function. -/
structure ModuleDesc where
  main_fn : Option (ScanContext → ModuleOutput)

/-- The scanner: the store's data (the scan context) plus the `filesize`
global (a 64-bit integer). -/
structure Scanner where
  ctx : ScanContext
  filesize : Int
  deriving DecidableEq

/-- The value of `data.len() as i64`: two's-complement wrap of a `usize`
into an `i64`. -/
def i64_of_usize (n : Nat) : Int :=
  if n % 2 ^ 64 < 2 ^ 63 then ((n % 2 ^ 64 : Nat) : Int)
  else ((n % 2 ^ 64 : Nat) : Int) - 2 ^ 64

/-- Source `bitmap.fill(false)`: every bit cleared, length preserved. -/
def fillFalse (l : List Bool) : List Bool := l.map (fun _ => false)

/-- The per-scan reset performed at the top of `scan`: clear the bitmap,
truncate `rules_matching`, store the data pointer and length, and reallocate
the string pool (the source does this unconditionally, see its TODO). -/
def resetContext (ctx : ScanContext) (data : List Nat) : ScanContext :=
  { ctx with
    rules_matching_bitmap := fillFalse ctx.rules_matching_bitmap,
    rules_matching := [],
    scanned_data := some data,
    scanned_data_len := data.length,
    string_pool := [] }

/-- Source `BUILTIN_MODULES.get`. -/
def lookupModule : List (List Nat × ModuleDesc) → List Nat → Option ModuleDesc
  | [], _ => none
  | (k0, v0) :: rest, k => if k0 = k then some v0 else lookupModule rest k

/-- Source `root_struct.insert`: replace the module's tree from the previous scan. -/
def insertRoot : List (List Nat × ModuleOutput) → List Nat → ModuleOutput →
    List (List Nat × ModuleOutput)
  | [], k, v => [(k, v)]
  | (k0, v0) :: rest, k, v =>
    if k0 = k then (k, v) :: rest else (k0, v0) :: insertRoot rest k v

/-- The module loop of `scan`: look each imported module up in the registry
(`unwrap` aborts on a missing module), call its main function (the
module-without-main branch is `todo!()`, which also aborts), and insert the
output into the root structure. `none` models the abort. -/
def runModules (registry : List (List Nat × ModuleDesc)) :
    List (List Nat) → ScanContext → Option ScanContext
  | [], ctx => some ctx
  | name :: rest, ctx =>
    match lookupModule registry name with
    | none => none
    | some desc =>
      match desc.main_fn with
      | none => none
      | some f =>
        let out := f ctx
        runModules registry rest
          { ctx with root_struct := insertRoot ctx.root_struct name out }

/-- The outcome of one `scan` call. `scanError` is never produced by the
embedded code — it exists so that the specified behaviour (a trap surfacing
as a recoverable scan error) is expressible; `aborted` models a Rust panic
(`unwrap` of a trapped call, a missing module, or the `todo!()` branch). -/
inductive ScanOutcome where
  | ok (s : Scanner)
  | scanError (s : Scanner)
  | aborted
  deriving DecidableEq

/-- Whether an outcome is the `scanError` the spec promises. -/
def isScanError : ScanOutcome → Bool
  | .scanError _ => true
  | _ => false

/-- Source `Scanner::scan`: set the `filesize` global, reset the per-scan state, run
the module mains, invoke (and `unwrap`) the wasm `main` function — a trap
therefore aborts — and finally clear the data pointer before building the
results view over the context. `wasm_main` is the compiled rule module's
entry point: it transforms the context (recording matches) or traps. -/
def Scanner.scan (registry : List (List Nat × ModuleDesc))
    (wasm_main : ScanContext → Except Unit ScanContext)
    (s : Scanner) (data : List Nat) : ScanOutcome :=
  let s1 : Scanner := { s with filesize := i64_of_usize data.length }
  let ctx0 := resetContext s1.ctx data
  match runModules registry s1.ctx.compiled_rules.imported_modules ctx0 with
  | none => .aborted
  | some ctx1 =>
    match wasm_main ctx1 with
    | .error _ => .aborted
    | .ok ctx2 =>
      .ok { s1 with ctx := { ctx2 with scanned_data := none, scanned_data_len := 0 } }

/-- Source `ScanResults::new(self.wasm_store.data())`: the results view borrows the
context. -/
def scanResults (s : Scanner) : ScanContext := s.ctx

/-- A world containing the scanner and arbitrary state outside it; used to
express that `scan` mutates scanner-owned state only. -/
structure ScanWorld (ε : Type) where
  scanner : Scanner
  ext : ε

/-- Source `scan` acting on a world: only the scanner component can change. -/
def scanInWorld {ε : Type} (registry : List (List Nat × ModuleDesc))
    (wasm_main : ScanContext → Except Unit ScanContext)
    (w : ScanWorld ε) (data : List Nat) : ScanOutcome × ScanWorld ε :=
  match Scanner.scan registry wasm_main w.scanner data with
  | .ok s2 => (.ok s2, { w with scanner := s2 })
  | r => (r, w)

/-- The empty module registry used by the concrete scanner examples. -/
def c7Registry : List (List Nat × ModuleDesc) := []

/-- A wasm main that returns without trapping and without recording
anything. -/
def c7Main : ScanContext → Except Unit ScanContext := fun c => .ok c

/-- A concrete scanner with one rule, a filled bitmap and leftover state from
a previous scan. -/
def c7Scanner : Scanner :=
  { ctx :=
    { rules_matching_bitmap := [true],
      rules_matching := [0],
      scanned_data := some [5],
      scanned_data_len := 1,
      compiled_rules :=
        { rules := [{ identifier := [0x61], rule_namespace := [] }],
          imported_modules := [] },
      root_struct := [],
      string_pool := [[1]] },
    filesize := 7 }

/-- The scanner state after scanning the two-byte buffer `[9, 9]`. -/
def c7After : Scanner :=
  { ctx :=
    { rules_matching_bitmap := [false],
      rules_matching := [],
      scanned_data := none,
      scanned_data_len := 0,
      compiled_rules :=
        { rules := [{ identifier := [0x61], rule_namespace := [] }],
          imported_modules := [] },
      root_struct := [],
      string_pool := [] },
    filesize := 2 }

/-- A wasm main that always traps. -/
def c1Trap : ScanContext → Except Unit ScanContext := fun _ => .error ()

/-- Source `iter_zeros`: the ascending positions of the zero bits of the bitmap. -/
def zerosIdx : List Bool → List Nat
  | [] => []
  | b :: rest =>
    let t := (zerosIdx rest).map (fun i => i + 1)
    if b then t else 0 :: t

/-- Source `IterMatches`: the recorded rule ids, in order. -/
def iter_matches_ids (ctx : ScanContext) : List Nat := ctx.rules_matching

/-- Source `IterNonMatches`: the ids of the zero bits, ascending. -/
def iter_non_matches_ids (ctx : ScanContext) : List Nat :=
  zerosIdx ctx.rules_matching_bitmap

/-- Source `IterMatches::next` projects each id to `rules()[id]`. -/
def iter_matches (ctx : ScanContext) : List CompiledRule :=
  ctx.rules_matching.map
    (fun id => ctx.compiled_rules.rules.getD id
      { identifier := [], rule_namespace := [] })

/-- Source `IterNonMatches::next` projects each zero-bit index to `rules()[id]`. -/
def iter_non_matches (ctx : ScanContext) : List CompiledRule :=
  (zerosIdx ctx.rules_matching_bitmap).map
    (fun id => ctx.compiled_rules.rules.getD id
      { identifier := [], rule_namespace := [] })

/-- A concrete context agreeing with its bitmap: rules 0 and 2 matched (in
recorded order 2 then 0), rule 1 did not. -/
def c8Ctx : ScanContext :=
  { rules_matching_bitmap := [true, false, true],
    rules_matching := [2, 0],
    scanned_data := none,
    scanned_data_len := 0,
    compiled_rules :=
      { rules := [{ identifier := [0x61], rule_namespace := [] },
                  { identifier := [0x62], rule_namespace := [] },
                  { identifier := [0x63], rule_namespace := [] }],
        imported_modules := [] },
    root_struct := [],
    string_pool := [] }

end Scan

namespace Capi

/-- The C-ABI result codes (`YRX_RESULT`). -/
inductive YRX_RESULT where
  | SUCCESS
  | SYNTAX_ERROR
  | VARIABLE_ERROR
  | SCAN_ERROR
  | SCAN_TIMEOUT
  | INVALID_ARGUMENT
  | INVALID_UTF8
  | SERIALIZATION_ERROR
  | NO_METADATA
  deriving DecidableEq

/-- The thread-local `LAST_ERROR` cell: `none` models an empty cell, `some c`
a stored `CString` (its bytes, terminating null included). -/
structure ThreadLocalState where
  last_error : Option (List Nat)
  deriving DecidableEq

/-- Source `CString::new`: appends the terminating null; `none` models the `unwrap`
panic when the message contains an interior null byte. -/
def mkCString (msg : List Nat) : Option (List Nat) :=
  if 0 ∈ msg then none else some (msg ++ [0])

/-- Source `yrx_last_error`: a pointer to the stored message, or null (`none`) when
the cell is empty. -/
def yrx_last_error (tls : ThreadLocalState) : Option (List Nat) :=
  tls.last_error

/-- The observable result of one `yrx_compile` call: the returned code, the
thread-local state it leaves behind, and the rules handle it stored (`none`
when the out-parameter was not written). -/
structure CompileOutcome (R : Type) where
  result : YRX_RESULT
  tls : ThreadLocalState
  rules_out : Option R

/-- Source `yrx_compile`, parameterized by the library's `yara_x::compile` (an
external collaborator): on failure store the rendered message in the
thread-local cell and return `SYNTAX_ERROR`; on success store the new rules
handle, clear the cell and return `SUCCESS`. The outer `none` models the
panic of `CString::new(..).unwrap()` on a message with an interior null. -/
def yrx_compile {R : Type} (compileFn : List Nat → Except (List Nat) R)
    (src : List Nat) (_tls : ThreadLocalState) : Option (CompileOutcome R) :=
  match compileFn src with
  | .ok r => some { result := .SUCCESS, tls := { last_error := none },
                    rules_out := some r }
  | .error msg =>
    match mkCString msg with
    | none => none
    | some c => some { result := .SYNTAX_ERROR, tls := { last_error := some c },
                       rules_out := none }

/-- Source `yrx_rules_serialize`, parameterized by the library's serializer: a null
`rules` handle returns `INVALID_ARGUMENT` and touches neither the `buf`
out-parameter nor the thread-local cell. -/
def yrx_rules_serialize {R : Type} (serializeFn : R → Except (List Nat) (List Nat))
    (rules : Option R) (buf : Option (List Nat)) (tls : ThreadLocalState) :
    Option (YRX_RESULT × Option (List Nat) × ThreadLocalState) :=
  match rules with
  | some r =>
    match serializeFn r with
    | .ok serialized =>
      some (.SUCCESS, some serialized, { last_error := none })
    | .error msg =>
      match mkCString msg with
      | none => none
      | some c => some (.SERIALIZATION_ERROR, buf, { last_error := some c })
  | none => some (.INVALID_ARGUMENT, buf, tls)

/-- A rule handle as seen by the C ABI (`YRX_RULE`): its identifier bytes. -/
structure RuleHandle where
  identifier : List Nat
  deriving DecidableEq

/-- Source `yrx_rule_identifier`: a null `rule` handle returns `INVALID_ARGUMENT`
and touches neither the out-parameters nor the thread-local cell; otherwise
the identifier pointer and length are written and the cell is cleared. -/
def yrx_rule_identifier (rule : Option RuleHandle) (ident : Option (List Nat))
    (len : Option Nat) (tls : ThreadLocalState) :
    YRX_RESULT × Option (List Nat) × Option Nat × ThreadLocalState :=
  match rule with
  | some r =>
    (.SUCCESS, some r.identifier, some r.identifier.length,
      { last_error := none })
  | none => (.INVALID_ARGUMENT, ident, len, tls)

/-- A concrete compile function that fails with the one-byte message `A`. -/
def c9Fail : List Nat → Except (List Nat) Unit := fun _ => .error [0x41]

/-- A concrete serializer for the C10 witness. -/
def c10Ser : Unit → Except (List Nat) (List Nat) := fun _ => .ok []

end Capi

namespace Olecf

/-- A list of naturals without duplicates whose elements are below `B` has at
most `B` elements. -/
lemma length_le_of_nodup_of_lt (l : List Nat) (B : Nat) (hn : l.Nodup)
    (hb : ∀ x ∈ l, x < B) : l.length ≤ B := by
  have h1 : l.toFinset ⊆ Finset.range B := by
    intro x hx
    exact Finset.mem_range.mpr (hb x (List.mem_toFinset.mp hx))
  have h2 := Finset.card_le_card h1
  rwa [List.toFinset_card_of_nodup hn, Finset.card_range] at h2

/-- A successful FAT lookup forces the sector below the number of entries the
FAT sectors can describe. -/
lemma get_fat_entry_ok_lt (p : OLECFParser) (s v : Nat)
    (h : p.get_fat_entry s = .ok v) :
    s < SECTOR_SIZE / 4 * p.fat_sectors.length := by
  unfold OLECFParser.get_fat_entry at h
  simp only [SECTOR_SIZE] at h ⊢
  norm_num at h ⊢
  by_cases hc : p.fat_sectors.length ≤ s / 128
  · simp [hc] at h
  · push_neg at hc
    have := (Nat.div_lt_iff_lt_mul (by norm_num : (0:Nat) < 128)).mp hc
    omega

/-- Invariant lemma for the `follow_chain` loop: under the loop invariant
(no duplicates, every accumulated sector had a successful FAT lookup, enough
iteration budget remains), the loop either returns the chain unchanged (when
`current` fails a guard) or extends it by a nonempty tail that starts at
`current`, keeps the chain duplicate-free, is linked through the FAT, and
ends with a genuine stop condition (the budget is never exhausted). -/
lemma followChainAux_spec (p : OLECFParser) : ∀ (fuel current : Nat) (chain : List Nat),
    chain.Nodup →
    (∀ x ∈ chain, ∃ v, p.get_fat_entry x = .ok v) →
    SECTOR_SIZE / 4 * p.fat_sectors.length + 2 ≤ fuel + chain.length →
    ((current > MAX_REGULAR_SECTOR ∨ current ∈ chain) →
        followChainAux p fuel current chain = chain)
    ∧ (current ≤ MAX_REGULAR_SECTOR → current ∉ chain →
        ∃ t, followChainAux p fuel current chain = chain ++ t
          ∧ t ≠ []
          ∧ t.head? = some current
          ∧ (∀ x ∈ t, x ≤ MAX_REGULAR_SECTOR)
          ∧ (chain ++ t).Nodup
          ∧ (∀ i, i + 1 < t.length →
              p.get_fat_entry (t.getD i 0) = .ok (t.getD (i + 1) 0))
          ∧ ∃ last, t.getLast? = some last ∧ StopsAfter p (chain ++ t) last) := by
  intro fuel
  induction fuel with
  | zero =>
    intro current chain hnd hok hbudget
    constructor
    · intro _; rfl
    · intro _ _
      exfalso
      have hlt : ∀ x ∈ chain, x < SECTOR_SIZE / 4 * p.fat_sectors.length := by
        intro x hx
        obtain ⟨v, hv⟩ := hok x hx
        exact get_fat_entry_ok_lt p x v hv
      have := length_le_of_nodup_of_lt chain _ hnd hlt
      omega
  | succ fuel ih =>
    intro current chain hnd hok hbudget
    constructor
    · intro hbad
      rcases hbad with hgt | hmem
      · simp [followChainAux, hgt]
      · by_cases hgt : current > MAX_REGULAR_SECTOR
        · simp [followChainAux, hgt]
        · simp [followChainAux, hgt, hmem]
    · intro hle hfresh
      have hgt : ¬ current > MAX_REGULAR_SECTOR := by omega
      have hnd' : (chain ++ [current]).Nodup := by
        simp [List.nodup_append, hnd, hfresh]
      rcases hfat : p.get_fat_entry current with e | n
      · -- FAT lookup failed
        refine ⟨[current], ?_, by simp, by simp, ?_, hnd', ?_, current, by simp, ?_⟩
        · simp [followChainAux, hgt, hfresh, hfat]
        · intro x hx; simp at hx; omega
        · intro i hi; simp at hi
        · exact Or.inl ⟨e, hfat⟩
      · by_cases heoc : n = ENDOFCHAIN
        · -- end of chain sentinel
          refine ⟨[current], ?_, by simp, by simp, ?_, hnd', ?_, current, by simp, ?_⟩
          · simp [followChainAux, hgt, hfresh, hfat, heoc]
          · intro x hx; simp at hx; omega
          · intro i hi; simp at hi
          · exact Or.inr (Or.inl (heoc ▸ hfat))
        · -- the loop continues from n
          have hstep : followChainAux p (fuel + 1) current chain
              = followChainAux p fuel n (chain ++ [current]) := by
            simp [followChainAux, hgt, hfresh, hfat, heoc]
          have hok' : ∀ x ∈ chain ++ [current], ∃ v, p.get_fat_entry x = .ok v := by
            intro x hx
            rcases List.mem_append.mp hx with hx | hx
            · exact hok x hx
            · simp at hx; exact ⟨n, hx ▸ hfat⟩
          have hbudget' : SECTOR_SIZE / 4 * p.fat_sectors.length + 2
              ≤ fuel + (chain ++ [current]).length := by
            simp; omega
          have IH := ih n (chain ++ [current]) hnd' hok' hbudget'
          by_cases hval : n > MAX_REGULAR_SECTOR ∨ n ∈ chain ++ [current]
          · have hres : followChainAux p fuel n (chain ++ [current]) = chain ++ [current] :=
              IH.1 hval
            refine ⟨[current], ?_, by simp, by simp, ?_, hnd', ?_, current, by simp, ?_⟩
            · rw [hstep, hres]
            · intro x hx; simp at hx; omega
            · intro i hi; simp at hi
            · exact Or.inr (Or.inr ⟨n, hfat, by
                rcases hval with h | h
                · exact Or.inl h
                · exact Or.inr h⟩)
          · push_neg at hval
            obtain ⟨hnle, hnfresh⟩ := hval
            obtain ⟨t', heq', hne', hhead', hmax', hnd'', hlinks', last, hlast', hstop'⟩ :=
              IH.2 (by omega) hnfresh
            refine ⟨current :: t', ?_, by simp, by simp, ?_, ?_, ?_, last, ?_, ?_⟩
            · rw [hstep, heq', List.append_assoc]; simp
            · intro x hx
              rcases List.mem_cons.mp hx with hx | hx
              · omega
              · exact hmax' x hx
            · have : chain ++ current :: t' = (chain ++ [current]) ++ t' := by
                rw [List.append_assoc]; simp
              rw [this]; exact hnd''
            · intro i hi
              cases i with
              | zero =>
                simp only [List.getD_cons_zero, List.getD_cons_succ]
                have h0 : t'.getD 0 0 = n := by
                  cases t' with
                  | nil => simp at hne'
                  | cons a l => simp at hhead'; simp [hhead']
                rw [h0]; exact hfat
              | succ j =>
                simp only [List.getD_cons_succ]
                apply hlinks'
                simp at hi
                omega
            · cases t' with
              | nil => simp at hne'
              | cons a l => rw [List.getLast?_cons_cons]; exact hlast'
            · have : chain ++ current :: t' = (chain ++ [current]) ++ t' := by
                rw [List.append_assoc]; simp
              rw [this]; exact hstop'

/-- Every element of the chain except possibly the last had a successful FAT
lookup (it is linked to its successor). -/
lemma mem_dropLast_has_ok (p : OLECFParser) (t : List Nat)
    (hlinks : ∀ i, i + 1 < t.length →
      p.get_fat_entry (t.getD i 0) = .ok (t.getD (i + 1) 0)) :
    ∀ x ∈ t.dropLast, ∃ v, p.get_fat_entry x = .ok v := by
  intro x hx
  obtain ⟨i, hi, hxe⟩ := List.mem_iff_getElem.mp hx
  have e4 : i < t.length := by
    have := List.length_dropLast t
    omega
  have e5 : i + 1 < t.length := by
    have := List.length_dropLast t
    omega
  have e2 : t.getD i 0 = x := by
    rw [List.getD_eq_getElem t 0 e4, ← List.getElem_dropLast t i hi, hxe]
  exact ⟨t.getD (i + 1) 0, by rw [← e2]; exact hlinks i e5⟩

set_option maxRecDepth 100000 in
/-- C2: `follow_chain` terminates for every input buffer and every start
sector: the returned chain never contains the same sector twice, so when every
sector with a successful FAT lookup is below `ns` the chain has at most
`ns + 1` elements (in particular at most `128 * fat_sectors.length + 1`
always), and on the FAT whose entry for sector 2 points back to sector 2,
`follow_chain 2` is exactly `[2]`. -/
theorem follow_chain_terminates :
    (∀ (p : OLECFParser) (start : Nat), (p.follow_chain start).Nodup)
    ∧ (∀ (p : OLECFParser) (start ns : Nat),
        (∀ s v, p.get_fat_entry s = .ok v → s < ns) →
        (p.follow_chain start).length ≤ ns + 1)
    ∧ (∀ (p : OLECFParser) (start : Nat),
        (p.follow_chain start).length ≤ SECTOR_SIZE / 4 * p.fat_sectors.length + 1)
    ∧ cycParser.follow_chain 2 = [2] := by
  have main : ∀ (p : OLECFParser) (start : Nat),
      p.follow_chain start = []
      ∨ (p.follow_chain start).Nodup
        ∧ (p.follow_chain start ≠ []
        ∧ ∀ i, i + 1 < (p.follow_chain start).length →
            p.get_fat_entry ((p.follow_chain start).getD i 0)
              = .ok ((p.follow_chain start).getD (i + 1) 0)) := by
    intro p start
    have H := followChainAux_spec p (SECTOR_SIZE / 4 * p.fat_sectors.length + 2)
      start [] (by simp) (by simp) (by simp)
    by_cases hv : start > MAX_REGULAR_SECTOR
    · left
      exact H.1 (Or.inl hv)
    · right
      obtain ⟨t, heq, hne, _, _, hnd, hlinks, _⟩ := H.2 (by omega) (by simp)
      have heq' : p.follow_chain start = t := by
        rw [OLECFParser.follow_chain, heq]; simp
      rw [heq']
      simp at hnd
      exact ⟨hnd, hne, hlinks⟩
  have hnodup : ∀ (p : OLECFParser) (start : Nat), (p.follow_chain start).Nodup := by
    intro p start
    rcases main p start with h | h
    · rw [h]; exact List.nodup_nil
    · exact h.1
  have hbound : ∀ (p : OLECFParser) (start ns : Nat),
      (∀ s v, p.get_fat_entry s = .ok v → s < ns) →
      (p.follow_chain start).length ≤ ns + 1 := by
    intro p start ns hns
    rcases main p start with h | h
    · rw [h]; simp
    · obtain ⟨hnd, hne, hlinks⟩ := h
      have hdl : ∀ x ∈ (p.follow_chain start).dropLast, x < ns := by
        intro x hx
        obtain ⟨v, hv⟩ := mem_dropLast_has_ok p _ hlinks x hx
        exact hns x v hv
      have hdlnd : (p.follow_chain start).dropLast.Nodup :=
        (List.dropLast_sublist _).nodup hnd
      have := length_le_of_nodup_of_lt _ ns hdlnd hdl
      have := List.length_dropLast (p.follow_chain start)
      omega
  refine ⟨hnodup, hbound, ?_, by decide⟩
  intro p start
  exact hbound p start _ (fun s v hv => get_fat_entry_ok_lt p s v hv)

/-- Witness for C2 at the concrete cyclic FAT: with `ns = 128` the bound
gives a chain of at most 129 sectors. -/
theorem follow_chain_terminates_witness :
    (cycParser.follow_chain 2).length ≤ 129 :=
  follow_chain_terminates.2.1 cycParser 2 128
    (fun s v hv => by
      have := get_fat_entry_ok_lt cycParser s v hv
      simpa [cycParser, SECTOR_SIZE] using this)

/-- C3: `follow_chain start` is the FAT-linked sequence beginning at `start`
(empty when `start` is not a regular sector), it stops only for the loop's
stated reasons, and when the FAT entry of a valid start sector is end-of-chain
on the first step the chain is exactly `[start]`. -/
theorem follow_chain_sequence :
    ∀ (p : OLECFParser) (start : Nat),
      (start > MAX_REGULAR_SECTOR → p.follow_chain start = [])
      ∧ (start ≤ MAX_REGULAR_SECTOR → (p.follow_chain start).head? = some start)
      ∧ ChainLinks p (p.follow_chain start)
      ∧ (p.follow_chain start = []
          ∨ ∃ last, (p.follow_chain start).getLast? = some last
              ∧ StopsAfter p (p.follow_chain start) last)
      ∧ (start ≤ MAX_REGULAR_SECTOR → p.get_fat_entry start = .ok ENDOFCHAIN →
          p.follow_chain start = [start]) := by
  intro p start
  have H := followChainAux_spec p (SECTOR_SIZE / 4 * p.fat_sectors.length + 2)
    start [] (by simp) (by simp) (by simp)
  by_cases hv : start > MAX_REGULAR_SECTOR
  · have hempty : p.follow_chain start = [] := H.1 (Or.inl hv)
    refine ⟨fun _ => hempty, fun h => by omega, ?_, Or.inl hempty, fun h => by omega⟩
    intro i hi
    rw [hempty] at hi
    simp at hi
  · obtain ⟨t, heq, hne, hhead, _, _, hlinks, last, hlast, hstop⟩ :=
      H.2 (by omega) (by simp)
    have heq' : p.follow_chain start = t := by
      rw [OLECFParser.follow_chain, heq]; simp
    refine ⟨fun h => absurd h hv, fun _ => by rw [heq']; exact hhead, ?_, ?_, ?_⟩
    · intro i hi
      rw [heq'] at hi ⊢
      exact hlinks i hi
    · right
      refine ⟨last, by rw [heq']; exact hlast, ?_⟩
      rw [heq']
      simpa using hstop
    · intro _ hfat
      rw [OLECFParser.follow_chain]
      show followChainAux p (SECTOR_SIZE / 4 * p.fat_sectors.length + 1 + 1) start [] = [start]
      simp [followChainAux, hv, hfat]

set_option maxRecDepth 100000 in
/-- Witness for C3 at a concrete FAT whose entry for the start sector is the
end-of-chain sentinel: the chain has length 1. -/
theorem follow_chain_sequence_witness :
    eocParser.follow_chain 1 = [1] := by
  have h1 : (1 : Nat) ≤ MAX_REGULAR_SECTOR := by norm_num [MAX_REGULAR_SECTOR]
  have h2 : eocParser.get_fat_entry 1 = .ok ENDOFCHAIN := by decide
  exact (follow_chain_sequence eocParser 1).2.2.2.2 h1 h2

lemma ebind_ok {α β : Type} {x : Except OlecfError α}
    {f : α → Except OlecfError β} {b : β} (h : ebind x f = .ok b) :
    ∃ a, x = .ok a ∧ f a = .ok b := by
  cases hx : x with
  | error e => rw [hx] at h; simp [ebind] at h
  | ok a => rw [hx] at h; exact ⟨a, rfl, h⟩

lemma pbind_ok {α β : Type} {x : Except Unit α} {f : α → Except Unit β}
    {b : β} (h : pbind x f = .ok b) : ∃ a, x = .ok a ∧ f a = .ok b := by
  cases hx : x with
  | error e => rw [hx] at h; simp [pbind] at h
  | ok a => rw [hx] at h; exact ⟨a, rfl, h⟩

lemma takeN_ok {n : Nat} {l : List Nat} {s : List Nat × List Nat}
    (h : takeN n l = .ok s) :
    s.1 = l.take n ∧ s.2 = l.drop n ∧ n ≤ l.length := by
  unfold takeN at h
  by_cases hl : l.length < n
  · rw [if_pos hl] at h
    exact absurd h (by simp)
  · rw [if_neg hl] at h
    cases h
    exact ⟨rfl, rfl, by omega⟩

lemma leU16_ok {l : List Nat} {s : Nat × List Nat} (h : leU16 l = .ok s) :
    s.1 = l.getD 0 0 + 256 * l.getD 1 0 ∧ s.2 = l.drop 2 ∧ 2 ≤ l.length := by
  unfold leU16 at h
  by_cases hl : l.length < 2
  · rw [if_pos hl] at h
    exact absurd h (by simp)
  · rw [if_neg hl] at h
    cases h
    exact ⟨rfl, rfl, by omega⟩

lemma leU32_ok {l : List Nat} {s : Nat × List Nat} (h : leU32 l = .ok s) :
    s.1 = l.getD 0 0 + 256 * l.getD 1 0 + 65536 * l.getD 2 0
        + 16777216 * l.getD 3 0
    ∧ s.2 = l.drop 4 ∧ 4 ≤ l.length := by
  unfold leU32 at h
  by_cases hl : l.length < 4
  · rw [if_pos hl] at h
    exact absurd h (by simp)
  · rw [if_neg hl] at h
    cases h
    exact ⟨rfl, rfl, by omega⟩

lemma getD_drop (l : List Nat) (k i : Nat) :
    (l.drop k).getD i 0 = l.getD (k + i) 0 := by
  simp [List.getD_eq_getElem?_getD, List.getElem?_drop]

/-- A successful header-fields parse pins down the signature, a minimal
length, the byte-order mark, and where `first_dir_sector` was read from. -/
lemma parse_header_fields_ok {data : List Nat} {h : HeaderFields}
    (hok : parse_header_fields data = .ok h) :
    data.take 8 = OLECF_SIGNATURE
    ∧ 76 ≤ data.length
    ∧ headerBom data = some 0xFFFE
    ∧ headerFirstDirSector data = some h.first_dir_sector := by
  unfold parse_header_fields at hok
  obtain ⟨s0, h0, hok⟩ := pbind_ok hok
  obtain ⟨ha0, hr0, hl0⟩ := takeN_ok h0
  by_cases hsig : s0.1 ≠ OLECF_SIGNATURE
  · rw [if_pos hsig] at hok
    exact absurd hok (by simp)
  rw [if_neg hsig] at hok
  push_neg at hsig
  obtain ⟨s1, h1, hok⟩ := pbind_ok hok
  obtain ⟨_, hr1, hl1⟩ := takeN_ok h1
  rw [hr0] at hr1 hl1
  rw [List.drop_drop] at hr1
  norm_num at hr1
  obtain ⟨s2, h2, hok⟩ := pbind_ok hok
  obtain ⟨_, hr2, hl2⟩ := leU16_ok h2
  rw [hr1] at hr2 hl2
  rw [List.drop_drop] at hr2
  norm_num at hr2
  obtain ⟨s3, h3, hok⟩ := pbind_ok hok
  obtain ⟨_, hr3, hl3⟩ := leU16_ok h3
  rw [hr2] at hr3 hl3
  rw [List.drop_drop] at hr3
  norm_num at hr3
  obtain ⟨s4, h4, hok⟩ := pbind_ok hok
  obtain ⟨hv4, hr4, hl4⟩ := leU16_ok h4
  rw [hr3] at hv4 hr4 hl4
  rw [List.drop_drop] at hr4
  norm_num at hr4
  rw [getD_drop, getD_drop] at hv4
  norm_num at hv4
  by_cases hbom : s4.1 ≠ 0xFFFE
  · rw [if_pos hbom] at hok
    exact absurd hok (by simp)
  rw [if_neg hbom] at hok
  push_neg at hbom
  obtain ⟨s5, h5, hok⟩ := pbind_ok hok
  obtain ⟨_, hr5, hl5⟩ := leU16_ok h5
  rw [hr4] at hr5 hl5
  rw [List.drop_drop] at hr5
  norm_num at hr5
  obtain ⟨s6, h6, hok⟩ := pbind_ok hok
  obtain ⟨_, hr6, hl6⟩ := leU16_ok h6
  rw [hr5] at hr6 hl6
  rw [List.drop_drop] at hr6
  norm_num at hr6
  obtain ⟨s7, h7, hok⟩ := pbind_ok hok
  obtain ⟨_, hr7, hl7⟩ := takeN_ok h7
  rw [hr6] at hr7 hl7
  rw [List.drop_drop] at hr7
  norm_num at hr7
  obtain ⟨s8, h8, hok⟩ := pbind_ok hok
  obtain ⟨_, hr8, hl8⟩ := leU32_ok h8
  rw [hr7] at hr8 hl8
  rw [List.drop_drop] at hr8
  norm_num at hr8
  obtain ⟨s9, h9, hok⟩ := pbind_ok hok
  obtain ⟨_, hr9, hl9⟩ := leU32_ok h9
  rw [hr8] at hr9 hl9
  rw [List.drop_drop] at hr9
  norm_num at hr9
  obtain ⟨s10, h10, hok⟩ := pbind_ok hok
  obtain ⟨hv10, hr10, hl10⟩ := leU32_ok h10
  rw [hr9] at hv10 hr10 hl10
  rw [List.drop_drop] at hr10
  norm_num at hr10
  rw [getD_drop, getD_drop, getD_drop, getD_drop] at hv10
  norm_num at hv10
  obtain ⟨s11, h11, hok⟩ := pbind_ok hok
  obtain ⟨_, hr11, hl11⟩ := leU32_ok h11
  rw [hr10] at hr11 hl11
  rw [List.drop_drop] at hr11
  norm_num at hr11
  obtain ⟨s12, h12, hok⟩ := pbind_ok hok
  obtain ⟨_, hr12, hl12⟩ := leU32_ok h12
  rw [hr11] at hr12 hl12
  rw [List.drop_drop] at hr12
  norm_num at hr12
  obtain ⟨s13, h13, hok⟩ := pbind_ok hok
  obtain ⟨_, hr13, hl13⟩ := leU32_ok h13
  rw [hr12] at hr13 hl13
  rw [List.drop_drop] at hr13
  norm_num at hr13
  obtain ⟨s14, h14, hok⟩ := pbind_ok hok
  obtain ⟨_, hr14, hl14⟩ := leU32_ok h14
  rw [hr13] at hr14 hl14
  rw [List.drop_drop] at hr14
  norm_num at hr14
  obtain ⟨s15, h15, hok⟩ := pbind_ok hok
  obtain ⟨_, hr15, hl15⟩ := leU32_ok h15
  rw [hr14] at hr15 hl15
  rw [List.drop_drop] at hr15
  norm_num at hr15
  obtain ⟨s16, h16, hok⟩ := pbind_ok hok
  obtain ⟨_, _, hl16⟩ := leU32_ok h16
  rw [hr15] at hl16
  have hfd : h.first_dir_sector = s10.1 := by
    cases hok
    rfl
  have hlen : 76 ≤ data.length := by
    rw [List.length_drop] at hl16
    omega
  refine ⟨?_, hlen, ?_, ?_⟩
  · rw [← ha0, hsig]
  · unfold headerBom
    rw [if_pos (by omega)]
    have hv := hv4.symm.trans hbom
    simp only [Option.some.injEq]
    simpa [List.getD_eq_getElem?_getD] using hv
  · unfold headerFirstDirSector
    rw [if_pos (by omega)]
    simp only [Option.some.injEq]
    rw [hfd, hv10]
    simp [List.getD_eq_getElem?_getD]

/-- A successful `parse_header` implies a successful header-fields parse with
a regular first directory sector. -/
lemma parse_header_ok {data : List Nat} {p : OLECFParser}
    (hok : parse_header data = .ok p) :
    ∃ h, parse_header_fields data = .ok h
      ∧ h.first_dir_sector < MAX_REGULAR_SECTOR := by
  unfold parse_header at hok
  obtain ⟨h, hh, hrest⟩ := pbind_ok hok
  refine ⟨h, hh, ?_⟩
  by_cases hc : h.first_dir_sector < MAX_REGULAR_SECTOR
  · exact hc
  · simp only [if_neg hc] at hrest
    exact absurd hrest (by simp)

/-- A successful `new` decomposes into a successful header parse followed by
a successful directory parse. -/
lemma new_ok {data : List Nat} {p : OLECFParser}
    (hok : OLECFParser.new data = .ok p) :
    ∃ q, parse_header data = .ok q ∧ parse_directory q = .ok p := by
  unfold OLECFParser.new at hok
  cases hp : pbind (parse_header data) parse_directory with
  | error e => rw [hp] at hok; exact absurd hok (by simp)
  | ok q' =>
    rw [hp] at hok
    obtain ⟨q, hq, hd⟩ := pbind_ok hp
    cases hok
    exact ⟨q, hq, hd⟩

/-- C4: `OLECFParser::new` rejects its input whenever the first eight bytes
differ from the OLECF signature, or the little-endian u16 byte-order mark at
header offset 28 is not `0xFFFE`, or the first directory sector (little-endian
u32 at header offset 48) is not a regular sector, or the directory chain is
empty. -/
theorem olecf_new_rejects_invalid (data : List Nat)
    (hbad : data.take 8 ≠ OLECF_SIGNATURE
      ∨ headerBom data ≠ some 0xFFFE
      ∨ (∀ s, headerFirstDirSector data = some s → MAX_REGULAR_SECTOR ≤ s)
      ∨ newDirectorySectors data = some []) :
    exceptIsOk (OLECFParser.new data) = false := by
  cases hnew : OLECFParser.new data with
  | error e => rfl
  | ok p =>
    exfalso
    obtain ⟨q, hH, hD⟩ := new_ok hnew
    obtain ⟨h, hhf, hlt⟩ := parse_header_ok hH
    obtain ⟨hsig, hlen, hbom, hfd⟩ := parse_header_fields_ok hhf
    rcases hbad with hb | hb | hb | hb
    · exact hb hsig
    · exact hb hbom
    · have := hb _ hfd
      omega
    · unfold newDirectorySectors at hb
      rw [hH] at hb
      have hq : q.directory_sectors = [] := by
        simpa using hb
      unfold parse_directory at hD
      rw [if_pos hq] at hD
      exact absurd hD (by simp)

/-- Witness for C4: the empty buffer has no OLECF signature and is rejected. -/
theorem olecf_new_rejects_invalid_witness :
    ([] : List Nat).take 8 ≠ OLECF_SIGNATURE
    ∧ exceptIsOk (OLECFParser.new []) = false :=
  ⟨by decide, olecf_new_rejects_invalid [] (Or.inl (by decide))⟩

lemma get_regular_stream_data_ok_length {p : OLECFParser}
    {start size : Nat} {d : List Nat}
    (h : p.get_regular_stream_data start size = .ok d) : d.length = size := by
  unfold OLECFParser.get_regular_stream_data at h
  obtain ⟨dd, hl, h⟩ := ebind_ok h
  by_cases hne : dd.length ≠ size
  · rw [if_pos hne] at h
    exact absurd h (by simp)
  · rw [if_neg hne] at h
    cases h
    push_neg at hne
    exact hne

lemma get_mini_stream_data_ok_length {p : OLECFParser}
    {start size : Nat} {d : List Nat}
    (h : p.get_mini_stream_data start size = .ok d) : d.length = size := by
  unfold OLECFParser.get_mini_stream_data at h
  by_cases hz : p.mini_stream_size = 0
  · rw [if_pos hz] at h
    exact absurd h (by simp)
  rw [if_neg hz] at h
  obtain ⟨ms, hr, h⟩ := ebind_ok h
  obtain ⟨dd, hl, h⟩ := ebind_ok h
  by_cases hne : dd.length ≠ size
  · rw [if_pos hne] at h
    exact absurd h (by simp)
  · rw [if_neg hne] at h
    cases h
    push_neg at hne
    exact hne

/-- C5: `get_stream_data` reads entries smaller than 4096 bytes that are not
the root storage through the mini stream and the others through the main FAT;
the mini stream source is the root storage's regular chain; a collected
length different from `size` is reported as the incomplete-stream error; and
on success the returned buffer length equals the entry's size exactly. -/
theorem get_stream_data_spec :
    (∀ (p : OLECFParser) (name : List Nat) (entry : DirectoryEntry),
      lookupEntry p.dir_entries name = some entry →
      ((entry.size < 4096 ∧ entry.stream_type ≠ ROOT_STORAGE_TYPE →
          p.get_stream_data name
            = p.get_mini_stream_data entry.start_sector entry.size)
        ∧ (¬ (entry.size < 4096 ∧ entry.stream_type ≠ ROOT_STORAGE_TYPE) →
          p.get_stream_data name
            = p.get_regular_stream_data entry.start_sector entry.size)
        ∧ (∀ buf, p.get_stream_data name = .ok buf →
            buf.length = entry.size)))
    ∧ (∀ p : OLECFParser, p.get_root_mini_stream_data
        = p.get_regular_stream_data p.mini_stream_start p.mini_stream_size)
    ∧ (∀ (p : OLECFParser) (start size : Nat) (d : List Nat),
        regular_loop p size (size + 1) start [] = .ok d → d.length ≠ size →
        p.get_regular_stream_data start size = .error .incompleteStream) := by
  refine ⟨?_, fun p => rfl, ?_⟩
  · intro p name entry hlook
    have hd : p.get_stream_data name
        = if entry.size < 4096 ∧ entry.stream_type ≠ ROOT_STORAGE_TYPE
          then p.get_mini_stream_data entry.start_sector entry.size
          else p.get_regular_stream_data entry.start_sector entry.size := by
      unfold OLECFParser.get_stream_data
      rw [hlook]
    refine ⟨fun hc => by rw [hd, if_pos hc], fun hc => by rw [hd, if_neg hc], ?_⟩
    intro buf hbuf
    rw [hd] at hbuf
    by_cases hc : entry.size < 4096 ∧ entry.stream_type ≠ ROOT_STORAGE_TYPE
    · rw [if_pos hc] at hbuf
      exact get_mini_stream_data_ok_length hbuf
    · rw [if_neg hc] at hbuf
      exact get_regular_stream_data_ok_length hbuf
  · intro p start size d hloop hne
    unfold OLECFParser.get_regular_stream_data
    rw [hloop]
    show ebind (Except.ok d) _ = _
    rw [ebind, if_pos hne]

set_option maxRecDepth 200000 in
/-- Witness for C5: the root-storage entry is read through the regular path
and the returned buffer length equals its size. -/
theorem get_stream_data_spec_witness :
    lookupEntry c5Parser.dir_entries [0x52] = some c5Entry
    ∧ c5Parser.get_stream_data [0x52] = .ok []
    ∧ ([] : List Nat).length = c5Entry.size :=
  ⟨by decide, by decide,
    (get_stream_data_spec.1 c5Parser [0x52] c5Entry (by decide)).2.2 [] (by decide)⟩

lemma utf8LossyAux_ascii : ∀ (fuel : Nat) (l : List Nat), l.length ≤ fuel →
    (∀ u ∈ l, u < 0x80) → utf8LossyAux fuel l = l := by
  intro fuel
  induction fuel with
  | zero =>
    intro l hl _
    cases l with
    | nil => rfl
    | cons b rest => simp at hl
  | succ f ih =>
    intro l hl hu
    cases l with
    | nil => rfl
    | cons b rest =>
      have hb : b < 0x80 := hu b (by simp)
      have hrest := ih rest (by simp at hl; omega)
        (fun u hu' => hu u (by simp [hu']))
      simp [utf8LossyAux, hb, hrest]

/-- Lossy UTF-8 decoding is the identity on ASCII byte lists. -/
lemma utf8LossyDecode_ascii (l : List Nat) (h : ∀ u ∈ l, u < 0x80) :
    utf8LossyDecode l = l :=
  utf8LossyAux_ascii l.length l le_rfl h

lemma filter_nz_flatMap (l : List Nat) :
    ((l.flatMap (fun u => [u, 0])).filter (fun b => b != 0))
      = l.filter (fun b => b != 0) := by
  induction l with
  | nil => rfl
  | cons u rest ih =>
    rw [List.flatMap_cons, List.filter_append, ih]
    by_cases hu : u = 0
    · subst hu
      simp [List.filter]
    · have hbu : (u != 0) = true := by simpa using hu
      simp [List.filter, hbu]

lemma utf16Units_flatMap (l : List Nat) :
    utf16Units (l.flatMap (fun u => [u, 0])) = l := by
  induction l with
  | nil => rfl
  | cons u rest ih =>
    rw [List.flatMap_cons]
    show utf16Units (u :: 0 :: rest.flatMap (fun u => [u, 0])) = u :: rest
    rw [utf16Units, ih]
    norm_num

lemma dropWhile_zero_eq_self (l : List Nat) (h : ∀ u ∈ l, u ≠ 0) :
    l.dropWhile (fun u => u == 0) = l := by
  cases l with
  | nil => rfl
  | cons b rest =>
    have : b ≠ 0 := h b (by simp)
    simp [List.dropWhile_cons, this]

lemma dropTrailingNulls_append_replicate (us : List Nat) (k : Nat)
    (h : ∀ u ∈ us, u ≠ 0) :
    dropTrailingNulls (us ++ List.replicate k 0) = us := by
  unfold dropTrailingNulls
  rw [List.reverse_append, List.reverse_replicate, List.dropWhile_append]
  have h1 : (List.replicate k 0).dropWhile (fun u => u == 0)
      = ([] : List Nat) := by
    induction k with
    | zero => rfl
    | succ n ih => simp [List.replicate, List.dropWhile_cons, ih]
  have h2 : us.reverse.dropWhile (fun u => u == 0) = us.reverse :=
    dropWhile_zero_eq_self us.reverse (fun u hu => h u (List.mem_reverse.mp hu))
  rw [h1]
  simp [h2]

lemma utf16ScalarsAux_ascii : ∀ (fuel : Nat) (l : List Nat),
    l.length ≤ fuel → (∀ u ∈ l, u < 0x80) →
    utf16ScalarsAux fuel l = l := by
  intro fuel
  induction fuel with
  | zero =>
    intro l hl _
    cases l with
    | nil => rfl
    | cons b rest => simp at hl
  | succ f ih =>
    intro l hl hu
    cases l with
    | nil => rfl
    | cons u rest =>
      have hb : u < 0x80 := hu u (by simp)
      have hrest := ih rest (by simp at hl; omega)
        (fun x hx => hu x (by simp [hx]))
      have c1 : ¬ (0xD800 ≤ u ∧ u ≤ 0xDBFF) := by omega
      have c2 : ¬ (0xDC00 ≤ u ∧ u ≤ 0xDFFF) := by omega
      simp [utf16ScalarsAux, c1, c2, hrest]

/-- UTF-16 unit decoding is the identity on ASCII unit lists. -/
lemma utf16ToScalars_ascii (l : List Nat) (h : ∀ u ∈ l, u < 0x80) :
    utf16ToScalars l = l :=
  utf16ScalarsAux_ascii l.length l le_rfl h

/-- A successful directory entry read produces as name the lossy UTF-8
decoding of the raw name bytes with all zero bytes removed. -/
lemma read_directory_entry_ok_name {data : List Nat} {offset nl : Nat}
    {e : DirectoryEntry}
    (hnl : parse_u16_at data (offset + 64) = .ok nl)
    (h : read_directory_entry data offset = .ok e) :
    e.name = utf8LossyDecode
      (((data.drop offset).take nl).filter (fun b => b != 0)) := by
  unfold read_directory_entry at h
  by_cases hb : offset + 128 > data.length
  · rw [if_pos hb] at h
    exact absurd h (by simp)
  rw [if_neg hb] at h
  obtain ⟨nl2, hnl2, h⟩ := ebind_ok h
  rw [hnl] at hnl2
  cases hnl2
  by_cases hrange : ¬ (2 ≤ nl ∧ nl ≤ 64)
  · rw [if_pos hrange] at h
    exact absurd h (by simp)
  rw [if_neg hrange] at h
  obtain ⟨ss, h116, h⟩ := ebind_ok h
  obtain ⟨sz, h120, h⟩ := ebind_ok h
  cases h
  rfl

set_option maxRecDepth 200000 in
/-- Counterexample for C6: the surfaced name is `[U+FFFD]`, while the UTF-16
decoding with trailing nulls removed is `[U+00E9]`. -/
theorem dir_entry_name_counterexample :
    read_directory_entry c6Data 0 = .ok c6Entry
    ∧ specUtf16Name ((c6Data.drop 0).take 2) = [0xE9]
    ∧ c6Entry.name ≠ specUtf16Name ((c6Data.drop 0).take 2) :=
  ⟨by decide, by decide, by decide⟩

/-- C6 (amended): for every accepted directory entry whose raw name bytes are
little-endian UTF-16 units that are all ASCII and nonzero except for a
trailing run of null units, the surfaced name equals the UTF-16 decoding with
the trailing null units filtered out; in general the surfaced name is the
lossy UTF-8 decoding of the raw name bytes with all zero bytes removed, which
differs from the UTF-16 decoding on non-ASCII units. -/
theorem dir_entry_name_ascii (data : List Nat) (offset : Nat)
    (e : DirectoryEntry) (nl k : Nat) (us : List Nat)
    (hnl : parse_u16_at data (offset + 64) = .ok nl)
    (hok : read_directory_entry data offset = .ok e)
    (hraw : (data.drop offset).take nl
      = (us ++ List.replicate k 0).flatMap (fun u => [u, 0]))
    (hus : ∀ u ∈ us, 0 < u ∧ u < 0x80) :
    e.name = us ∧ specUtf16Name ((data.drop offset).take nl) = us := by
  have h1 := read_directory_entry_ok_name hnl hok
  have hfil : (us ++ List.replicate k 0).filter (fun b => b != 0) = us := by
    rw [List.filter_append]
    have hrep : (List.replicate k 0).filter (fun b => b != 0)
        = ([] : List Nat) := by
      induction k with
      | zero => rfl
      | succ n ih => simp [List.replicate, List.filter, ih]
    rw [hrep, List.append_nil]
    rw [List.filter_eq_self]
    intro a ha
    have := (hus a ha).1
    simpa using this.ne'
  constructor
  · rw [h1, hraw, filter_nz_flatMap, hfil]
    exact utf8LossyDecode_ascii us (fun u hu => (hus u hu).2)
  · rw [hraw]
    unfold specUtf16Name
    rw [utf16Units_flatMap]
    rw [dropTrailingNulls_append_replicate us k (fun u hu => (hus u hu).1.ne')]
    exact utf16ToScalars_ascii us (fun u hu => (hus u hu).2)

set_option maxRecDepth 200000 in
/-- Witness for the amended C6 at a concrete ASCII name. -/
theorem dir_entry_name_ascii_witness :
    read_directory_entry c6wData 0 = .ok c6wEntry
    ∧ c6wEntry.name = [0x41]
    ∧ specUtf16Name ((c6wData.drop 0).take 4) = [0x41] := by
  have H := dir_entry_name_ascii c6wData 0 c6wEntry 4 1 [0x41]
    (by decide) (by decide) (by decide) (by decide)
  exact ⟨by decide, H.1, H.2⟩

end Olecf

namespace Scan

/-- C7: every successful `scan(data)` writes `data.len()` into the `filesize`
global as a 64-bit integer, resets the per-scan state (bitmap cleared to
zeros at unchanged length, `rules_matching` truncated, data pointer and
length set to the input buffer), and after the rule module's main function
returns it clears the data pointer back to null with length 0 while the
results view keeps main's bitmap and match list; state outside the scanner
is never mutated. -/
theorem scan_state_transition :
    ∀ {ε : Type} (registry : List (List Nat × ModuleDesc))
      (wasm_main : ScanContext → Except Unit ScanContext)
      (w : ScanWorld ε) (s : Scanner) (data : List Nat) (s2 : Scanner),
      Scanner.scan registry wasm_main s data = .ok s2 →
      (s2.filesize = i64_of_usize data.length
        ∧ (resetContext s.ctx data).rules_matching_bitmap.length
            = s.ctx.rules_matching_bitmap.length
        ∧ (∀ b ∈ (resetContext s.ctx data).rules_matching_bitmap, b = false)
        ∧ (resetContext s.ctx data).rules_matching = []
        ∧ (resetContext s.ctx data).scanned_data = some data
        ∧ (resetContext s.ctx data).scanned_data_len = data.length
        ∧ (scanResults s2).scanned_data = none
        ∧ (scanResults s2).scanned_data_len = 0
        ∧ (∃ ctx1 ctx2,
            runModules registry s.ctx.compiled_rules.imported_modules
                (resetContext s.ctx data) = some ctx1
            ∧ wasm_main ctx1 = .ok ctx2
            ∧ (scanResults s2).rules_matching_bitmap = ctx2.rules_matching_bitmap
            ∧ (scanResults s2).rules_matching = ctx2.rules_matching)
        ∧ (scanInWorld registry wasm_main w data).2.ext = w.ext) := by
  intro ε registry wasm_main w s data s2 hscan
  have hworld : (scanInWorld registry wasm_main w data).2.ext = w.ext := by
    unfold scanInWorld
    split <;> rfl
  simp only [Scanner.scan] at hscan
  split at hscan
  · exact absurd hscan (by simp)
  · rename_i ctx1 hrm
    split at hscan
    · exact absurd hscan (by simp)
    · rename_i ctx2 hmain
      cases hscan
      refine ⟨rfl, by simp [resetContext, fillFalse],
        by simp [resetContext, fillFalse], rfl, rfl, rfl, rfl, rfl,
        ⟨ctx1, ctx2, hrm, hmain, rfl, rfl⟩, hworld⟩

/-- Witness for C7 at a concrete scan. -/
theorem scan_state_transition_witness :
    Scanner.scan c7Registry c7Main c7Scanner [9, 9] = .ok c7After
    ∧ c7After.filesize = i64_of_usize 2
    ∧ (scanResults c7After).scanned_data = none := by
  have h : Scanner.scan c7Registry c7Main c7Scanner [9, 9] = .ok c7After := by
    decide
  have H := scan_state_transition c7Registry c7Main
    (⟨c7Scanner, 42⟩ : ScanWorld Nat) c7Scanner [9, 9] c7After h
  exact ⟨h, by simpa using H.1, H.2.2.2.2.2.2.1⟩

/-- Counterexample for C1: when the rule module's main function traps,
`Scanner::scan` unwraps the error and panics — the outcome is an abort, not
a reported `ScanError`. -/
theorem scan_trap_counterexample :
    Scanner.scan c7Registry c1Trap c7Scanner [1, 2] = .aborted
    ∧ isScanError (Scanner.scan c7Registry c1Trap c7Scanner [1, 2]) = false :=
  ⟨by decide, by decide⟩

/-- C1 (amended): a trap in the rule module's main function aborts (panics)
instead of surfacing as a `ScanError`; nevertheless every `scan` call first
resets the per-scan state, and a call whose main function returns cleanly
completes normally regardless of the previous scan's leftovers. -/
theorem scan_trap_aborts :
    ∀ (registry : List (List Nat × ModuleDesc))
      (wasm_main : ScanContext → Except Unit ScanContext)
      (s : Scanner) (data : List Nat) (ctx1 : ScanContext),
      runModules registry s.ctx.compiled_rules.imported_modules
          (resetContext s.ctx data) = some ctx1 →
      ((∀ e, wasm_main ctx1 = .error e →
          Scanner.scan registry wasm_main s data = .aborted)
        ∧ (∀ ctx2, wasm_main ctx1 = .ok ctx2 →
          Scanner.scan registry wasm_main s data
            = .ok { s with
                filesize := i64_of_usize data.length,
                ctx := { ctx2 with
                  scanned_data := none,
                  scanned_data_len := 0 } })) := by
  intro registry wasm_main s data ctx1 hrm
  constructor
  · intro e he
    simp only [Scanner.scan, hrm, he]
  · intro ctx2 hok
    simp only [Scanner.scan, hrm, hok]

/-- Witness for the amended C1: a trapping main aborts the concrete scan. -/
theorem scan_trap_aborts_witness :
    Scanner.scan c7Registry c1Trap c7Scanner [3] = .aborted :=
  (scan_trap_aborts c7Registry c1Trap c7Scanner [3]
    (resetContext c7Scanner.ctx [3]) (by decide)).1 () rfl

lemma mem_zerosIdx : ∀ (l : List Bool) (i : Nat),
    i ∈ zerosIdx l ↔ (i < l.length ∧ l.getD i true = false) := by
  intro l
  induction l with
  | nil => intro i; simp [zerosIdx]
  | cons b rest ih =>
    intro i
    cases i with
    | zero =>
      cases b with
      | true =>
        rw [show zerosIdx (true :: rest)
            = (zerosIdx rest).map (fun i => i + 1) from rfl]
        simp [List.mem_map]
      | false =>
        rw [show zerosIdx (false :: rest)
            = 0 :: (zerosIdx rest).map (fun i => i + 1) from rfl]
        simp
    | succ j =>
      have hmap : (j + 1 ∈ (zerosIdx rest).map (fun i => i + 1))
          ↔ j ∈ zerosIdx rest := by
        constructor
        · intro hm
          obtain ⟨x, hx, he⟩ := List.mem_map.mp hm
          have hxj : x = j := Nat.succ_injective he
          exact hxj ▸ hx
        · intro hm
          exact List.mem_map.mpr ⟨j, hm, rfl⟩
      cases b with
      | true =>
        rw [show zerosIdx (true :: rest)
            = (zerosIdx rest).map (fun i => i + 1) from rfl]
        rw [hmap, ih j]
        simp [List.getD_cons_succ]
      | false =>
        rw [show zerosIdx (false :: rest)
            = 0 :: (zerosIdx rest).map (fun i => i + 1) from rfl]
        rw [List.mem_cons]
        have hz : ((j + 1 = 0) ↔ False) := by simp
        rw [hz, false_or, hmap, ih j]
        simp [List.getD_cons_succ]

lemma pairwise_lt_zerosIdx : ∀ l : List Bool,
    List.Pairwise (· < ·) (zerosIdx l) := by
  intro l
  induction l with
  | nil => exact List.Pairwise.nil
  | cons b rest ih =>
    have hmap : List.Pairwise (· < ·) ((zerosIdx rest).map (fun i => i + 1)) := by
      refine List.pairwise_map.mpr ?_
      exact ih.imp (fun h => by omega)
    cases b with
    | true =>
      rw [show zerosIdx (true :: rest)
          = (zerosIdx rest).map (fun i => i + 1) from rfl]
      exact hmap
    | false =>
      rw [show zerosIdx (false :: rest)
          = 0 :: (zerosIdx rest).map (fun i => i + 1) from rfl]
      refine List.pairwise_cons.mpr ⟨?_, hmap⟩
      intro x hx
      obtain ⟨y, _, he⟩ := List.mem_map.mp hx
      omega

lemma getD_default_irrel (l : List Bool) (i : Nat) (h : i < l.length)
    (d d' : Bool) : l.getD i d = l.getD i d' := by
  rw [List.getD_eq_getElem l d h, List.getD_eq_getElem l d' h]

/-- C8: when `rules_matching` and the bitmap agree, `iter()` yields exactly
the recorded ids (projected to their rules) in recorded order,
`iter_non_matches()` yields exactly the zero bits in ascending order, never
yields a recorded rule, and the two iterations are disjoint and together
cover the whole rule-id space. -/
theorem results_iterators_partition :
    ∀ (ctx : ScanContext),
      (∀ i ∈ ctx.rules_matching, i < ctx.rules_matching_bitmap.length) →
      (∀ i, i < ctx.rules_matching_bitmap.length →
        (i ∈ ctx.rules_matching ↔ ctx.rules_matching_bitmap.getD i false = true)) →
      (iter_matches_ids ctx = ctx.rules_matching
        ∧ iter_matches ctx = ctx.rules_matching.map
            (fun id => ctx.compiled_rules.rules.getD id
              { identifier := [], rule_namespace := [] })
        ∧ List.Pairwise (· < ·) (iter_non_matches_ids ctx)
        ∧ (∀ i, i ∈ iter_non_matches_ids ctx ↔
            (i < ctx.rules_matching_bitmap.length
              ∧ ctx.rules_matching_bitmap.getD i true = false))
        ∧ (∀ i ∈ iter_non_matches_ids ctx, i ∉ ctx.rules_matching)
        ∧ (∀ i, ¬ (i ∈ iter_matches_ids ctx ∧ i ∈ iter_non_matches_ids ctx))
        ∧ (∀ i, i < ctx.rules_matching_bitmap.length ↔
            (i ∈ iter_matches_ids ctx ∨ i ∈ iter_non_matches_ids ctx))
        ∧ iter_non_matches ctx = (iter_non_matches_ids ctx).map
            (fun id => ctx.compiled_rules.rules.getD id
              { identifier := [], rule_namespace := [] })) := by
  intro ctx hbound hagree
  have hchar : ∀ i, i ∈ iter_non_matches_ids ctx ↔
      (i < ctx.rules_matching_bitmap.length
        ∧ ctx.rules_matching_bitmap.getD i true = false) :=
    fun i => mem_zerosIdx ctx.rules_matching_bitmap i
  have hnv : ∀ i ∈ iter_non_matches_ids ctx, i ∉ ctx.rules_matching := by
    intro i hi hmem
    obtain ⟨hlt, hz⟩ := (hchar i).mp hi
    have := (hagree i hlt).mp hmem
    rw [getD_default_irrel ctx.rules_matching_bitmap i hlt false true] at this
    rw [this] at hz
    exact absurd hz (by simp)
  refine ⟨rfl, rfl, pairwise_lt_zerosIdx _, hchar, hnv, ?_, ?_, rfl⟩
  · intro i ⟨hm, hnm⟩
    exact hnv i hnm hm
  · intro i
    constructor
    · intro hlt
      by_cases hm : i ∈ ctx.rules_matching
      · exact Or.inl hm
      · refine Or.inr ((hchar i).mpr ⟨hlt, ?_⟩)
        have hne : ctx.rules_matching_bitmap.getD i false ≠ true :=
          fun he => hm ((hagree i hlt).mpr he)
        have hfalse : ctx.rules_matching_bitmap.getD i false = false := by
          cases hb : ctx.rules_matching_bitmap.getD i false
          · rfl
          · exact absurd hb hne
        rw [getD_default_irrel ctx.rules_matching_bitmap i hlt true false]
        exact hfalse
    · intro h
      rcases h with hm | hnm
      · exact hbound i hm
      · exact ((hchar i).mp hnm).1

/-- Witness for C8: on the concrete context the non-match iterator visits
exactly rule 1, which is not among the recorded matches. -/
theorem results_iterators_partition_witness :
    iter_non_matches_ids c8Ctx = [1] ∧ (1 ∈ c8Ctx.rules_matching → False) :=
  ⟨by decide,
    fun hm => (results_iterators_partition c8Ctx (by decide)
      (by decide)).2.2.2.2.1 1 (by decide) hm⟩

end Scan

namespace Capi

/-- C9: a failing `yrx_compile` returns `SYNTAX_ERROR` and stores the
null-terminated message so that `yrx_last_error` returns a pointer to it; a
succeeding one returns `SUCCESS`, stores the rules handle, and clears the
thread-local error so that `yrx_last_error` returns null. -/
theorem yrx_compile_spec :
    ∀ {R : Type} (compileFn : List Nat → Except (List Nat) R)
      (src : List Nat) (tls : ThreadLocalState),
      (∀ msg, compileFn src = .error msg → 0 ∉ msg →
        yrx_compile compileFn src tls
          = some { result := .SYNTAX_ERROR,
                   tls := { last_error := some (msg ++ [0]) },
                   rules_out := none }
        ∧ yrx_last_error { last_error := some (msg ++ [0]) }
          = some (msg ++ [0]))
      ∧ (∀ r, compileFn src = .ok r →
        yrx_compile compileFn src tls
          = some { result := .SUCCESS, tls := { last_error := none },
                   rules_out := some r }
        ∧ yrx_last_error { last_error := none } = (none : Option (List Nat))) := by
  intro R compileFn src tls
  constructor
  · intro msg hmsg hnz
    constructor
    · simp [yrx_compile, hmsg, mkCString, hnz]
    · rfl
  · intro r hr
    constructor
    · simp [yrx_compile, hr]
    · rfl

/-- Witness for C9 at a concrete failing compile. -/
theorem yrx_compile_spec_witness :
    c9Fail [] = .error [0x41]
    ∧ yrx_compile c9Fail [] { last_error := none }
      = some { result := .SYNTAX_ERROR,
               tls := { last_error := some [0x41, 0] }, rules_out := none } :=
  ⟨rfl, ((yrx_compile_spec c9Fail []
      { last_error := none }).1 [0x41] rfl (by decide)).1⟩

/-- C10: the null-handle paths of `yrx_rules_serialize` and
`yrx_rule_identifier` return `INVALID_ARGUMENT` without updating the
thread-local last error, so a subsequent `yrx_last_error` still returns
whatever the previous call on the thread left there. -/
theorem null_handle_keeps_last_error :
    ∀ {R : Type} (serializeFn : R → Except (List Nat) (List Nat))
      (buf : Option (List Nat)) (ident : Option (List Nat)) (len : Option Nat)
      (tls : ThreadLocalState),
      yrx_rules_serialize serializeFn (none : Option R) buf tls
        = some (.INVALID_ARGUMENT, buf, tls)
      ∧ yrx_rule_identifier none ident len tls
        = (.INVALID_ARGUMENT, ident, len, tls)
      ∧ (∀ out, yrx_rules_serialize serializeFn (none : Option R) buf tls
            = some out → yrx_last_error out.2.2 = yrx_last_error tls)
      ∧ yrx_last_error (yrx_rule_identifier none ident len tls).2.2.2
        = yrx_last_error tls := by
  intro R serializeFn buf ident len tls
  refine ⟨rfl, rfl, ?_, rfl⟩
  intro out hout
  unfold yrx_rules_serialize at hout
  cases hout
  rfl

end Capi

namespace Capi

/-- Witness for C10: with a stale message stored, the null-handle serialize
call returns `INVALID_ARGUMENT` and leaves the thread-local state intact. -/
theorem null_handle_keeps_last_error_witness :
    yrx_rules_serialize c10Ser (none : Option Unit) none
        { last_error := some [0x41, 0] }
      = some (.INVALID_ARGUMENT, none, { last_error := some [0x41, 0] })
    ∧ yrx_last_error ((YRX_RESULT.INVALID_ARGUMENT, (none : Option (List Nat)),
          ({ last_error := some [0x41, 0] } : ThreadLocalState)) :
          YRX_RESULT × Option (List Nat) × ThreadLocalState).2.2
      = yrx_last_error { last_error := some [0x41, 0] } :=
  ⟨(null_handle_keeps_last_error c10Ser none none none
      { last_error := some [0x41, 0] }).1,
    (null_handle_keeps_last_error c10Ser none none none
      { last_error := some [0x41, 0] }).2.2.1
      (.INVALID_ARGUMENT, none, { last_error := some [0x41, 0] }) rfl⟩

end Capi
